import Mathlib

/-
  Verification development for the BPMN extraction agent
  (BPMNProcessExtractionAgent): payload extraction, normalization
  (convertToBPMNFormat), schema validation, lane sizing, and XML
  serialization (generateBPMNXML), plus the frontend swimlane width
  computation (getLayoutedElements).

  Conventions of the embedding:
  - TS numbers are embedded as Int.  Every division that actually occurs in
    the pipeline is an exact division of an even nonnegative constant, so
    Int division agrees with JS float division there.
  - JS remainder (sign of the dividend) is Int.tmod, and Math.floor of a
    division is Int.fdiv.
  - The ambient JS runtime facilities a method body could consult (wall
    clock, random source) are passed explicitly as a JSEnv value; a method
    whose source contains no Date / Math.random call simply never reads it.
  - Fallible code (a TS throw) is embedded as Except.
-/

set_option linter.unusedVariables false

namespace BPMN

/-- Rectangle bounds record (x, y, width, height) used throughout the agent. -/
structure Bounds where
  x : Int
  y : Int
  width : Int
  height : Int
deriving DecidableEq, Repr

/-- A 2-D point, as produced by getElementCenter. -/
structure Point where
  x : Int
  y : Int
deriving DecidableEq, Repr

/-- The ambient JS runtime facilities available to a method body: the wall
clock (new Date().toISOString()) and a random source (Math.random).  They are
made explicit so that dependence or independence on them is visible. -/
structure JSEnv where
  nowISO : String
  randomSeq : Nat → Int

/-- A participant entry of the raw payload handed to convertToBPMNFormat
(only the fields the function reads). -/
structure RawParticipant where
  id : String
  name : String
deriving DecidableEq, Repr

/-- An element entry of the raw payload.  The input may carry bounds, but
convertToBPMNFormat never reads them; they are kept here so that this
independence can be stated. -/
structure RawElement where
  id : String
  type : String
  name : String
  participant : String
  bounds : Option Bounds
deriving DecidableEq, Repr

/-- A sequence-flow entry of the raw payload. -/
structure RawFlow where
  id : String
  sourceRef : String
  targetRef : String
  name : Option String
  conditionExpression : Option String
deriving DecidableEq, Repr

/-- The metadata entry of the raw payload (fields convertToBPMNFormat reads). -/
structure RawMetadata where
  processName : String
  complexity : String
deriving DecidableEq, Repr

/-- The raw payload that parseAndValidateBPMNResponse hands to
convertToBPMNFormat. -/
structure RawData where
  participants : List RawParticipant
  elements : List RawElement
  sequenceFlows : List RawFlow
  metadata : RawMetadata
deriving DecidableEq, Repr

/-- BPMNParticipant (BPMNParticipantSchema). -/
structure BPMNParticipant where
  id : String
  name : String
  processRef : String
  bounds : Bounds
deriving DecidableEq, Repr

/-- BPMNLane (BPMNLaneSchema). -/
structure BPMNLane where
  id : String
  name : String
  participantRef : String
  flowNodeRefs : List String
  bounds : Bounds
deriving DecidableEq, Repr

/-- BPMNElement (BPMNElementSchema).  The schema restricts type to seven
enum tags and gatewayDirection to three tags; those restrictions are not
part of this Lean type and are checked by bpmnSchemaOK below, mirroring the
Zod safeParse call. -/
structure BPMNElement where
  id : String
  type : String
  name : String
  participant : String
  lane : Option String
  bounds : Bounds
  gatewayDirection : Option String
deriving DecidableEq, Repr

/-- BPMNSequenceFlow (BPMNSequenceFlowSchema; the optional waypoints field is
never populated by convertToBPMNFormat and is omitted). -/
structure BPMNSequenceFlow where
  id : String
  sourceRef : String
  targetRef : String
  name : Option String
  conditionExpression : Option String
deriving DecidableEq, Repr

/-- Diagram metadata (BPMNDiagramSchema.metadata). -/
structure BPMNMetadata where
  processName : String
  totalElements : Nat
  complexity : String
  createdAt : String
  bpmnVersion : String
deriving DecidableEq, Repr

/-- BPMNProcess (BPMNProcessSchema). -/
structure BPMNProcess where
  id : String
  name : String
  isExecutable : Bool
  elements : List BPMNElement
  sequenceFlows : List BPMNSequenceFlow
deriving DecidableEq, Repr

/-- BPMNDiagramData (BPMNDiagramSchema). -/
structure BPMNDiagramData where
  processes : List BPMNProcess
  participants : List BPMNParticipant
  lanes : List BPMNLane
  metadata : BPMNMetadata
deriving DecidableEq, Repr

/-- The seven element type tags allowed by BPMNElementSchema. -/
def validTypes : List String :=
  ["bpmn:StartEvent", "bpmn:Task", "bpmn:UserTask", "bpmn:ServiceTask",
   "bpmn:ExclusiveGateway", "bpmn:ParallelGateway", "bpmn:EndEvent"]

/-- The widths lookup object of getElementWidth. -/
def widthsTable : List (String × Int) :=
  [("bpmn:StartEvent", 36), ("bpmn:EndEvent", 36), ("bpmn:Task", 100),
   ("bpmn:UserTask", 100), ("bpmn:ServiceTask", 100),
   ("bpmn:ExclusiveGateway", 50), ("bpmn:ParallelGateway", 50)]

/-- getElementWidth: fixed per-kind width with default 100. -/
def getElementWidth (t : String) : Int :=
  (widthsTable.lookup t).getD 100

/-- The heights lookup object of getElementHeight. -/
def heightsTable : List (String × Int) :=
  [("bpmn:StartEvent", 36), ("bpmn:EndEvent", 36), ("bpmn:Task", 80),
   ("bpmn:UserTask", 80), ("bpmn:ServiceTask", 80),
   ("bpmn:ExclusiveGateway", 50), ("bpmn:ParallelGateway", 50)]

/-- getElementHeight: fixed per-kind height with default 80. -/
def getElementHeight (t : String) : Int :=
  (heightsTable.lookup t).getD 80

/-- Substring test on lists of characters (JS String.prototype.includes). -/
def hasSubList (sub : List Char) : List Char → Bool
  | [] => sub.isEmpty
  | c :: t => sub.isPrefixOf (c :: t) || hasSubList sub t

/-- JS s.includes(sub). -/
def strIncludes (s sub : String) : Bool :=
  hasSubList sub.toList s.toList

/-- The participants loop of convertToBPMNFormat: starting at participantY =
80, each participant gets bounds x = 50, width = 1000, height = 150, and the
running y advances by height 150 plus spacing 20. -/
def mkParticipants : List RawParticipant → Int → List BPMNParticipant
  | [], _ => []
  | p :: ps, y =>
    { id := p.id, name := p.name, processRef := "process_1",
      bounds := { x := 50, y := y, width := 1000, height := 150 } }
      :: mkParticipants ps (y + 150 + 20)

/-- The lanes created in the same loop: one lane per participant, id
"lane_" ++ index, same bounds as the participant, flowNodeRefs filled later
(the source mutates them while converting elements). -/
def mkLanes : List RawParticipant → Int → Nat → List BPMNLane
  | [], _, _ => []
  | p :: ps, y, i =>
    { id := "lane_" ++ toString i, name := p.name, participantRef := p.id,
      flowNodeRefs := [],
      bounds := { x := 50, y := y, width := 1000, height := 150 } }
      :: mkLanes ps (y + 150 + 20) (i + 1)

/-- The element Map-based deduplication of convertToBPMNFormat: an element
whose id was already seen is dropped (first occurrence wins), mirrored with
an explicit seen set. -/
def dedupByIdAux (seen : List String) : List RawElement → List RawElement
  | [] => []
  | e :: es =>
    if seen.contains e.id then dedupByIdAux seen es
    else e :: dedupByIdAux (e.id :: seen) es

/-- Array.from(uniqueElements.values()): the input elements deduplicated by
id, first occurrence winning. -/
def uniqueElements (es : List RawElement) : List RawElement :=
  dedupByIdAux [] es

/-- The flow key of the sequence-flow dedup: sourceRef ++ "-" ++ targetRef. -/
def flowKey (f : RawFlow) : String :=
  f.sourceRef ++ "-" ++ f.targetRef

/-- The sequence-flow Map-based deduplication keyed on flowKey. -/
def dedupFlowsAux (seen : List String) : List RawFlow → List RawFlow
  | [] => []
  | f :: fs =>
    if seen.contains (flowKey f) then dedupFlowsAux seen fs
    else f :: dedupFlowsAux (flowKey f :: seen) fs

/-- Array.from(uniqueFlows.values()). -/
def dedupFlows (fs : List RawFlow) : List RawFlow :=
  dedupFlowsAux [] fs

/-- Element placement and conversion for one raw element, given the
participant it was resolved to, its index (for the lane id), and the
pre-increment per-participant element count.  Mirrors the positioning
branches of convertToBPMNFormat; note elementsInParticipant = count - 1,
which is -1 for a participant's first flow element (JS % and Math.floor on
negatives are Int.tmod and Int.fdiv). -/
def mkBPMNElement (el : RawElement) (part : BPMNParticipant) (idx : Nat)
    (cnt : Nat) : BPMNElement :=
  let w := getElementWidth el.type
  let h := getElementHeight el.type
  let pos : Int × Int :=
    if el.type = "bpmn:StartEvent" then
      (part.bounds.x + 80, part.bounds.y + part.bounds.height / 2 - 18)
    else if el.type = "bpmn:EndEvent" then
      (part.bounds.x + part.bounds.width - 120,
       part.bounds.y + part.bounds.height / 2 - 18)
    else
      let k : Int := (cnt : Int) - 1
      let ex0 := part.bounds.x + 200 + (Int.tmod k 5) * 150
      let ey0 := part.bounds.y + 35 + (Int.fdiv k 5) * 80
      if ex0 + w > part.bounds.x + part.bounds.width - 50 then
        (part.bounds.x + 200, part.bounds.y + 35 + (Int.fdiv (k + 5) 5) * 80)
      else (ex0, ey0)
  { id := el.id, type := el.type, name := el.name,
    participant := el.participant,
    lane := some ("lane_" ++ toString idx),
    bounds := { x := pos.1, y := pos.2, width := w, height := h },
    gatewayDirection :=
      if strIncludes el.type "Gateway" then some "Diverging" else none }

/-- The element conversion loop: resolve each element's participant by
findIndex over the raw participants (skipping the element when unknown),
track the per-participant element count in an association list, and convert
with mkBPMNElement. -/
def convertElementsAux (rawPs : List RawParticipant)
    (parts : List BPMNParticipant) (counts : List (String × Nat)) :
    List RawElement → List BPMNElement
  | [] => []
  | el :: rest =>
    match rawPs.findIdx? (fun p => p.id == el.participant) with
    | none => convertElementsAux rawPs parts counts rest
    | some idx =>
      match parts.get? idx with
      | none => convertElementsAux rawPs parts counts rest
      | some part =>
        let cnt := (counts.lookup part.id).getD 0
        mkBPMNElement el part idx cnt
          :: convertElementsAux rawPs parts ((part.id, cnt + 1) :: counts) rest

/-- The converted elements of convertToBPMNFormat. -/
def convertElements (rawPs : List RawParticipant)
    (parts : List BPMNParticipant) (es : List RawElement) : List BPMNElement :=
  convertElementsAux rawPs parts [] es

/-- Functional rendering of the flowNodeRefs mutation: each lane receives the
ids of the converted elements assigned to it, in conversion order. -/
def withFlowNodeRefs (lanes : List BPMNLane) (els : List BPMNElement) :
    List BPMNLane :=
  lanes.map (fun l =>
    { l with flowNodeRefs :=
        (els.filter (fun e => e.lane == some l.id)).map (fun e => e.id) })

/-- The flow validation loop: a deduplicated flow is kept only when its
sourceRef and targetRef are ids of converted elements and its sourceRef is
not the id of a bpmn:EndEvent element; kept flows are copied field for
field. -/
def keptFlows (els : List BPMNElement) (fs : List RawFlow) :
    List BPMNSequenceFlow :=
  let elementIds := els.map (fun e => e.id)
  let endEventIds :=
    (els.filter (fun e => e.type == "bpmn:EndEvent")).map (fun e => e.id)
  (fs.filter (fun f =>
      elementIds.contains f.sourceRef && elementIds.contains f.targetRef
        && !(endEventIds.contains f.sourceRef))).map
    (fun f =>
      { id := f.id, sourceRef := f.sourceRef, targetRef := f.targetRef,
        name := f.name, conditionExpression := f.conditionExpression })

/-- The constraints of BPMNElementSchema that are not already enforced by the
Lean type of BPMNElement: the type enum and the gatewayDirection enum. -/
def elementSchemaOK (e : BPMNElement) : Bool :=
  validTypes.contains e.type &&
    (match e.gatewayDirection with
     | none => true
     | some g => ["Diverging", "Converging", "Mixed"].contains g)

/-- The constraints of BPMNDiagramSchema.safeParse that are not already
enforced by the Lean types: element enums and the complexity enum.
(createdAt is always the ISO string taken from the clock, which satisfies
the datetime format check, so that check is not modelled.) -/
def bpmnSchemaOK (d : BPMNDiagramData) : Bool :=
  d.processes.all (fun pr => pr.elements.all elementSchemaOK) &&
    ["low", "medium", "high"].contains d.metadata.complexity

/-- The bpmnData record assembled by convertToBPMNFormat before its Zod
safeParse call: build participants and lanes, deduplicate and convert
elements, deduplicate and validate flows, and fill the metadata (createdAt
comes from the clock). -/
def assembledDiagram (env : JSEnv) (rawData : RawData) : BPMNDiagramData :=
  let parts := mkParticipants rawData.participants 80
  let lanes0 := mkLanes rawData.participants 80 0
  let els := convertElements rawData.participants parts
    (uniqueElements rawData.elements)
  let lanes := withFlowNodeRefs lanes0 els
  let flows := keptFlows els (dedupFlows rawData.sequenceFlows)
  let pr : BPMNProcess :=
    { id := "process_1", name := rawData.metadata.processName,
      isExecutable := false, elements := els, sequenceFlows := flows }
  let md : BPMNMetadata :=
    { processName := rawData.metadata.processName,
      totalElements := els.length,
      complexity := rawData.metadata.complexity,
      createdAt := env.nowISO,
      bpmnVersion := "2.0" }
  { processes := [pr], participants := parts, lanes := lanes,
    metadata := md }

/-- convertToBPMNFormat: assemble the diagram and run the Zod safeParse,
throwing (here: Except.error) on schema failure. -/
def convertToBPMNFormat (env : JSEnv) (rawData : RawData) :
    Except String BPMNDiagramData :=
  let bpmnData := assembledDiagram env rawData
  if bpmnSchemaOK bpmnData then Except.ok bpmnData
  else Except.error "BPMN schema validation failed"

/-- Replace the input bounds carried by the raw elements (a field the
conversion never reads). -/
def withInputBounds (f : RawElement → Option Bounds) (raw : RawData) :
    RawData :=
  { raw with
    elements := raw.elements.map (fun e => { e with bounds := f e }) }

/-- JS str.replace(pat, rep) on character lists: only the first occurrence of
pat is replaced; the string is unchanged when pat does not occur. -/
def replaceFirstList (s pat rep : List Char) : List Char :=
  match s with
  | [] => []
  | c :: cs =>
    if pat.isPrefixOf (c :: cs) then rep ++ (c :: cs).drop pat.length
    else c :: replaceFirstList cs pat rep

/-- JS s.replace(pat, rep) (first occurrence only, as with a string pattern). -/
def replaceFirst (s pat rep : String) : String :=
  String.mk (replaceFirstList s.toList pat.toList rep.toList)

/-- getElementCenter: the center of the bounds of the first element with the
given id, or the origin when no element matches. -/
def getElementCenter (elementId : String) (elements : List BPMNElement) :
    Point :=
  match elements.find? (fun e => e.id == elementId) with
  | none => { x := 0, y := 0 }
  | some e =>
    { x := e.bounds.x + e.bounds.width / 2,
      y := e.bounds.y + e.bounds.height / 2 }

/-- One participant line of the collaboration block. -/
def participantXML (p : BPMNParticipant) : String :=
  "\n    <bpmn:participant id=\"" ++ p.id ++ "\" name=\"" ++ p.name
    ++ "\" processRef=\"" ++ p.processRef ++ "\" />"

/-- One lane block of the laneSet, with one flowNodeRef line per member. -/
def laneXML (l : BPMNLane) : String :=
  "\n      <bpmn:lane id=\"" ++ l.id ++ "\" name=\"" ++ l.name ++ "\">"
    ++ String.join (l.flowNodeRefs.map (fun r =>
        "\n        <bpmn:flowNodeRef>" ++ r ++ "</bpmn:flowNodeRef>"))
    ++ "\n      </bpmn:lane>"

/-- One element line: the XML tag is the element type with the bpmn: marker
removed by JS replace (first occurrence only). -/
def elementXML (e : BPMNElement) : String :=
  "\n    <bpmn:" ++ replaceFirst e.type "bpmn:" "" ++ " id=\"" ++ e.id
    ++ "\" name=\"" ++ e.name ++ "\" />"

/-- One sequenceFlow line; the name attribute is emitted only when flow.name
is truthy in JS, that is present and non-empty. -/
def flowXML (f : BPMNSequenceFlow) : String :=
  "\n    <bpmn:sequenceFlow id=\"" ++ f.id ++ "\" sourceRef=\"" ++ f.sourceRef
    ++ "\" targetRef=\"" ++ f.targetRef ++ "\""
    ++ (match f.name with
        | some n => if n = "" then "" else " name=\"" ++ n ++ "\""
        | none => "")
    ++ " />"

/-- Bounds attribute string of a dc:Bounds line. -/
def boundsXML (b : Bounds) : String :=
  "<dc:Bounds x=\"" ++ toString b.x ++ "\" y=\"" ++ toString b.y
    ++ "\" width=\"" ++ toString b.width ++ "\" height=\"" ++ toString b.height
    ++ "\" />"

/-- Shape block of a participant. -/
def participantShapeXML (p : BPMNParticipant) : String :=
  "\n      <bpmndi:BPMNShape id=\"" ++ p.id ++ "_di\" bpmnElement=\"" ++ p.id
    ++ "\" isHorizontal=\"true\">\n        " ++ boundsXML p.bounds
    ++ "\n      </bpmndi:BPMNShape>"

/-- Shape block of a lane. -/
def laneShapeXML (l : BPMNLane) : String :=
  "\n      <bpmndi:BPMNShape id=\"" ++ l.id ++ "_di\" bpmnElement=\"" ++ l.id
    ++ "\" isHorizontal=\"true\">\n        " ++ boundsXML l.bounds
    ++ "\n      </bpmndi:BPMNShape>"

/-- Shape block of an element. -/
def elementShapeXML (e : BPMNElement) : String :=
  "\n      <bpmndi:BPMNShape id=\"" ++ e.id ++ "_di\" bpmnElement=\"" ++ e.id
    ++ "\">\n        " ++ boundsXML e.bounds ++ "\n      </bpmndi:BPMNShape>"

/-- The two waypoints emitted for one sequence flow: the centers of its
source and target elements (getElementCenter on each ref). -/
def flowDiWaypoints (f : BPMNSequenceFlow) (els : List BPMNElement) :
    List Point :=
  [getElementCenter f.sourceRef els, getElementCenter f.targetRef els]

/-- One di:waypoint line. -/
def waypointXML (p : Point) : String :=
  "\n        <di:waypoint x=\"" ++ toString p.x ++ "\" y=\"" ++ toString p.y
    ++ "\" />"

/-- Edge block of one sequence flow: the BPMNEdge wrapper around exactly the
waypoint lines of flowDiWaypoints. -/
def flowEdgeXML (f : BPMNSequenceFlow) (els : List BPMNElement) : String :=
  "\n      <bpmndi:BPMNEdge id=\"" ++ f.id ++ "_di\" bpmnElement=\"" ++ f.id
    ++ "\">" ++ String.join ((flowDiWaypoints f els).map waypointXML)
    ++ "\n      </bpmndi:BPMNEdge>"

/-- The fixed document header of generateBPMNXML. -/
def xmlHeader : String :=
  "<?xml version=\"1.0\" encoding=\"UTF-8\"?>\n<bpmn:definitions xmlns:bpmn=\"http://www.omg.org/spec/BPMN/20100524/MODEL\" \n                 xmlns:bpmndi=\"http://www.omg.org/spec/BPMN/20100524/DI\" \n                 xmlns:dc=\"http://www.omg.org/spec/DD/20100524/DC\" \n                 xmlns:di=\"http://www.omg.org/spec/DD/20100524/DI\" \n                 id=\"Definitions_1\" \n                 targetNamespace=\"http://bpmn.io/schema/bpmn\">\n  \n  <bpmn:collaboration id=\"Collaboration_1\">"

/-- The fallback used for bpmnData.processes[0]; convertToBPMNFormat always
produces exactly one process, so this value is never consulted on pipeline
data. -/
def emptyProcess : BPMNProcess :=
  { id := "", name := "", isExecutable := false, elements := [],
    sequenceFlows := [] }

/-- generateBPMNXML: serialize the diagram to the BPMN XML document by plain
string concatenation.  The JSEnv argument carries the only ambient
facilities (clock, random source) the method body could consult; the source
body contains no Date or Math.random call, so the result is built from
bpmnData alone. -/
def generateBPMNXML (_env : JSEnv) (bpmnData : BPMNDiagramData) : String :=
  let pr := bpmnData.processes.headD emptyProcess
  xmlHeader
    ++ String.join (bpmnData.participants.map participantXML)
    ++ "\n  </bpmn:collaboration>\n  \n  <bpmn:process id=\"" ++ pr.id
    ++ "\" name=\"" ++ pr.name ++ "\" isExecutable=\""
    ++ (if pr.isExecutable then "true" else "false")
    ++ "\">\n    <bpmn:laneSet id=\"LaneSet_1\">"
    ++ String.join (bpmnData.lanes.map laneXML)
    ++ "\n    </bpmn:laneSet>"
    ++ String.join (pr.elements.map elementXML)
    ++ String.join (pr.sequenceFlows.map flowXML)
    ++ "\n  </bpmn:process>\n  \n  <bpmndi:BPMNDiagram id=\"BPMNDiagram_1\">\n    <bpmndi:BPMNPlane id=\"BPMNPlane_1\" bpmnElement=\"Collaboration_1\">"
    ++ String.join (bpmnData.participants.map participantShapeXML)
    ++ String.join (bpmnData.lanes.map laneShapeXML)
    ++ String.join (pr.elements.map elementShapeXML)
    ++ String.join (pr.sequenceFlows.map (fun f => flowEdgeXML f pr.elements))
    ++ "\n    </bpmndi:BPMNPlane>\n  </bpmndi:BPMNDiagram>\n</bpmn:definitions>"

/-- The JSON-span extraction of parseAndValidateBPMNResponse, which runs the
greedy regex matching an opening brace, any characters, and a closing brace
(backslash-brace, dot-star, backslash-brace with dotall): the leftmost match
starts at the first opening brace of the text and, being greedy, ends at the
last closing brace of the whole text; there is no match exactly when no
closing brace occurs after the first opening brace. -/
def extractJsonMatch (s : List Char) : Option (List Char) :=
  match s.dropWhile (fun c => c != '{') with
  | [] => none
  | c :: rest =>
    if rest.contains '}' then
      some (c :: (rest.reverse.dropWhile (fun ch => ch != '}')).reverse)
    else none

/-- String form of extractJsonMatch. -/
def extractJsonSpan (s : String) : Option String :=
  (extractJsonMatch s.toList).map (fun l => String.mk l)

/-- Modelled from the spec: scan a balanced brace span starting at an opening
brace, tracking nesting depth; returns the span including both outer braces,
or none when the text ends before the depth returns to zero. -/
def scanBalanced : Nat → List Char → List Char → Option (List Char)
  | _, _, [] => none
  | d, acc, c :: rest =>
    if c = '{' then scanBalanced (d + 1) (c :: acc) rest
    else if c = '}' then
      if d = 1 then some (c :: acc).reverse
      else scanBalanced (d - 1) (c :: acc) rest
    else scanBalanced d (c :: acc) rest

/-- Modelled from the spec: the substring spanning the first balanced brace
span of the text (the first top-level structured payload of the object
form), or none when no balanced span exists. -/
def specFirstBalanced : List Char → Option (List Char)
  | [] => none
  | c :: rest =>
    if c = '{' then
      match scanBalanced 1 [c] rest with
      | some r => some r
      | none => specFirstBalanced rest
    else specFirstBalanced rest

/-- String form of specFirstBalanced. -/
def specFirstBalancedSpan (s : String) : Option String :=
  (specFirstBalanced s.toList).map (fun l => String.mk l)

/-- A node after the dagre pass of getLayoutedElements, as consumed by the
swimlane width computation: its parentId (JS truthiness of node.parentId is
modelled as the option being present) and its laid-out position.x. -/
structure LaidNode where
  id : String
  parentId : Option String
  x : Int
deriving DecidableEq, Repr

/-- A swimlane node of getLayoutedElements with the width of its style
record. -/
structure SwimLane where
  id : String
  width : Int
deriving DecidableEq, Repr

/-- The swimLanesWidthHeight.width accumulation of getLayoutedElements:
starting from 0, for each laid-out node carrying a parentId, when the
current width is smaller than the node's x the width becomes x + 100. -/
def swimLaneWidth (ns : List LaidNode) : Int :=
  ns.foldl
    (fun w n =>
      if n.parentId.isSome then (if w < n.x then n.x + 100 else w) else w)
    0

/-- The final lane mapping of getLayoutedElements: every swimlane node gets
the single computed width in its style. -/
def relayoutLanes (lanes : List SwimLane) (ns : List LaidNode) :
    List SwimLane :=
  lanes.map (fun l => { l with width := swimLaneWidth ns })

/-- Modelled from the spec: the diagram-wide lane width as the maximum of the
per-member required widths (member x plus the 100 margin the code adds),
taken over the members owned by a lane. -/
def specMaxRequiredWidth (ns : List LaidNode) : Int :=
  ns.foldl
    (fun w n => if n.parentId.isSome then max w (n.x + 100) else w)
    0

/-- The presence of the three required top-level collections checked by
parseAndValidateBPMNResponse after JSON.parse (JS truthiness of
parsedData.participants, parsedData.elements, parsedData.sequenceFlows). -/
structure ParsedPresence where
  hasParticipants : Bool
  hasElements : Bool
  hasSequenceFlows : Bool
deriving DecidableEq, Repr

/-- The required-fields check of parseAndValidateBPMNResponse: when any of
the three collections is missing it returns the single combined error list,
otherwise no error. -/
def requiredFieldsCheck (p : ParsedPresence) : Option (List String) :=
  if !p.hasParticipants || !p.hasElements || !p.hasSequenceFlows then
    some ["Missing required fields: participants, elements, or sequenceFlows"]
  else none

/-- A fixed environment value used to evaluate the pipeline on concrete
inputs. -/
def envW : JSEnv :=
  { nowISO := "2024-01-01T00:00:00.000Z", randomSeq := fun _ => 0 }

/-- A small well-formed raw payload: one participant, a start event, a task,
an end event, the two forward flows, and one illegal flow out of the end
event. -/
def rawW : RawData :=
  { participants := [{ id := "p1", name := "Ops" }],
    elements :=
      [{ id := "s", type := "bpmn:StartEvent", name := "Start",
         participant := "p1", bounds := none },
       { id := "t", type := "bpmn:Task", name := "Review",
         participant := "p1", bounds := none },
       { id := "e1", type := "bpmn:EndEvent", name := "Done",
         participant := "p1", bounds := none }],
    sequenceFlows :=
      [{ id := "f1", sourceRef := "s", targetRef := "t", name := none,
         conditionExpression := none },
       { id := "f2", sourceRef := "t", targetRef := "e1", name := none,
         conditionExpression := none },
       { id := "f3", sourceRef := "e1", targetRef := "s", name := none,
         conditionExpression := none }],
    metadata := { processName := "Demo", complexity := "low" } }

/-- An empty diagram used only as the getD fallback when extracting the ok
value of a conversion known to succeed. -/
def emptyDiagram : BPMNDiagramData :=
  { processes := [], participants := [], lanes := [],
    metadata :=
      { processName := "", totalElements := 0, complexity := "",
        createdAt := "", bpmnVersion := "" } }

/-- The diagram produced by converting rawW. -/
def diagW : BPMNDiagramData :=
  (convertToBPMNFormat envW rawW).toOption.getD emptyDiagram

/-- Two raw flows with distinct ordered (sourceRef, targetRef) pairs whose
dash-joined keys coincide: (a, b-c) and (a-b, c) both give a-b-c. -/
def flowP : RawFlow :=
  { id := "f1", sourceRef := "a", targetRef := "b-c", name := none,
    conditionExpression := none }

/-- The second colliding flow. -/
def flowQ : RawFlow :=
  { id := "f2", sourceRef := "a-b", targetRef := "c", name := none,
    conditionExpression := none }

/-- A raw payload whose only element references an unknown participant, so
zero elements survive pruning. -/
def rawC4 : RawData :=
  { participants := [{ id := "p1", name := "Ops" }],
    elements :=
      [{ id := "a", type := "bpmn:Task", name := "Orphan",
         participant := "ghost", bounds := none }],
    sequenceFlows := [],
    metadata := { processName := "Empty", complexity := "low" } }

/-- Two laid-out members of one lane whose x positions arrive in increasing
order with a gap smaller than the 100 margin. -/
def nsC5 : List LaidNode :=
  [{ id := "n1", parentId := some "lane1", x := 100 },
   { id := "n2", parentId := some "lane1", x := 150 }]

/-- A concrete start-event element for evaluating the serializer fragments. -/
def eS : BPMNElement :=
  { id := "s", type := "bpmn:StartEvent", name := "Start",
    participant := "p1", lane := some "lane_0",
    bounds := { x := 130, y := 137, width := 36, height := 36 },
    gatewayDirection := none }

/-- A concrete task element for evaluating the serializer fragments. -/
def eT : BPMNElement :=
  { id := "t", type := "bpmn:Task", name := "Review",
    participant := "p1", lane := some "lane_0",
    bounds := { x := 100, y := 115, width := 100, height := 80 },
    gatewayDirection := none }

/-- A concrete element list for evaluating the serializer fragments. -/
def elsW : List BPMNElement :=
  [eS, eT]

/-- A concrete sequence flow between the two elements of elsW. -/
def flowW : BPMNSequenceFlow :=
  { id := "f1", sourceRef := "s", targetRef := "t", name := none,
    conditionExpression := none }

/-- The single process of diagW. -/
def prW : BPMNProcess :=
  diagW.processes.headD emptyProcess

/-- The first retained sequence flow of prW. -/
def fW : BPMNSequenceFlow :=
  prW.sequenceFlows.headD flowW

/-- Everything the element dedup keeps comes from the input list. -/
theorem dedupByIdAux_subset (e : RawElement) :
    ∀ (l : List RawElement) (seen : List String),
      e ∈ dedupByIdAux seen l → e ∈ l := by
  intro l
  induction l with
  | nil => intro seen h; simp [dedupByIdAux] at h
  | cons x xs ih =>
    intro seen h
    simp only [dedupByIdAux] at h
    split at h
    · exact List.mem_cons_of_mem _ (ih _ h)
    · rcases List.mem_cons.1 h with h' | h'
      · exact h' ▸ List.mem_cons_self _ _
      · exact List.mem_cons_of_mem _ (ih _ h')

/-- Everything the flow dedup keeps comes from the input list. -/
theorem dedupFlowsAux_subset (f : RawFlow) :
    ∀ (l : List RawFlow) (seen : List String),
      f ∈ dedupFlowsAux seen l → f ∈ l := by
  intro l
  induction l with
  | nil => intro seen h; simp [dedupFlowsAux] at h
  | cons x xs ih =>
    intro seen h
    simp only [dedupFlowsAux] at h
    split at h
    · exact List.mem_cons_of_mem _ (ih _ h)
    · rcases List.mem_cons.1 h with h' | h'
      · exact h' ▸ List.mem_cons_self _ _
      · exact List.mem_cons_of_mem _ (ih _ h')

/-- Characterization of the element dedup: an element is kept exactly when
its id escaped the seen set and it is the first input element bearing its
id. -/
theorem dedupByIdAux_mem_iff (e : RawElement) :
    ∀ (l : List RawElement) (seen : List String),
      e ∈ dedupByIdAux seen l ↔
        seen.contains e.id = false ∧
          l.find? (fun x => x.id == e.id) = some e := by
  intro l
  induction l with
  | nil => intro seen; simp [dedupByIdAux]
  | cons x xs ih =>
    intro seen
    have hdef : dedupByIdAux seen (x :: xs) =
        if seen.contains x.id = true then dedupByIdAux seen xs
        else x :: dedupByIdAux (x.id :: seen) xs := rfl
    by_cases hxe : x.id = e.id
    · have hbe : (x.id == e.id) = true := by simpa using hxe
      have hfind : (x :: xs).find? (fun y => y.id == e.id) = some x :=
        List.find?_cons_of_pos _ hbe
      by_cases hsx : seen.contains x.id = true
      · rw [hdef, if_pos hsx]
        have hce : seen.contains e.id = true := by rw [← hxe]; exact hsx
        constructor
        · intro h
          rcases (ih seen).1 h with ⟨hco, -⟩
          rw [hce] at hco
          cases hco
        · rintro ⟨hco, -⟩
          rw [hce] at hco
          cases hco
      · have hsx' : ¬(seen.contains x.id = true) := hsx
        rw [hdef, if_neg hsx']
        rw [hfind]
        constructor
        · intro h
          rcases List.mem_cons.1 h with rfl | h'
          · refine ⟨?_, rfl⟩
            rw [← hxe]
            simpa using hsx
          · exfalso
            rcases (ih (x.id :: seen)).1 h' with ⟨hco, -⟩
            rw [List.contains_cons, hxe] at hco
            simp at hco
        · rintro ⟨-, hfe⟩
          exact List.mem_cons.2 (Or.inl (Option.some.inj hfe).symm)
    · have hbe : (x.id == e.id) = false := by simpa using hxe
      have hfind : (x :: xs).find? (fun y => y.id == e.id) =
          xs.find? (fun y => y.id == e.id) := by
        simp [List.find?, hbe]
      by_cases hsx : seen.contains x.id = true
      · rw [hdef, if_pos hsx, hfind]
        exact ih seen
      · rw [hdef, if_neg hsx, hfind, List.mem_cons]
        have hne : (e.id == x.id) = false := by
          simpa using fun h => hxe h.symm
        constructor
        · rintro (rfl | h')
          · exact absurd rfl hxe
          · rcases (ih (x.id :: seen)).1 h' with ⟨hco, hf⟩
            rw [List.contains_cons, hne] at hco
            simpa using And.intro hco hf
        · rintro ⟨hco, hf⟩
          right
          refine (ih (x.id :: seen)).2 ⟨?_, hf⟩
          rw [List.contains_cons, hne, hco]
          rfl

/-- Characterization of the flow dedup: a flow is kept exactly when its
dash-joined key escaped the seen set and it is the first input flow bearing
that key. -/
theorem dedupFlowsAux_mem_iff (f : RawFlow) :
    ∀ (l : List RawFlow) (seen : List String),
      f ∈ dedupFlowsAux seen l ↔
        seen.contains (flowKey f) = false ∧
          l.find? (fun g => flowKey g == flowKey f) = some f := by
  intro l
  induction l with
  | nil => intro seen; simp [dedupFlowsAux]
  | cons x xs ih =>
    intro seen
    have hdef : dedupFlowsAux seen (x :: xs) =
        if seen.contains (flowKey x) = true then dedupFlowsAux seen xs
        else x :: dedupFlowsAux (flowKey x :: seen) xs := rfl
    by_cases hxe : flowKey x = flowKey f
    · have hbe : (flowKey x == flowKey f) = true := by simpa using hxe
      have hfind : (x :: xs).find? (fun g => flowKey g == flowKey f) =
          some x :=
        List.find?_cons_of_pos _ hbe
      by_cases hsx : seen.contains (flowKey x) = true
      · rw [hdef, if_pos hsx]
        have hce : seen.contains (flowKey f) = true := by
          rw [← hxe]; exact hsx
        constructor
        · intro h
          rcases (ih seen).1 h with ⟨hco, -⟩
          rw [hce] at hco
          cases hco
        · rintro ⟨hco, -⟩
          rw [hce] at hco
          cases hco
      · have hsx' : ¬(seen.contains (flowKey x) = true) := hsx
        rw [hdef, if_neg hsx']
        rw [hfind]
        constructor
        · intro h
          rcases List.mem_cons.1 h with rfl | h'
          · refine ⟨?_, rfl⟩
            rw [← hxe]
            simpa using hsx
          · exfalso
            rcases (ih (flowKey x :: seen)).1 h' with ⟨hco, -⟩
            rw [List.contains_cons, hxe] at hco
            simp at hco
        · rintro ⟨-, hfe⟩
          exact List.mem_cons.2 (Or.inl (Option.some.inj hfe).symm)
    · have hbe : (flowKey x == flowKey f) = false := by simpa using hxe
      have hfind : (x :: xs).find? (fun g => flowKey g == flowKey f) =
          xs.find? (fun g => flowKey g == flowKey f) := by
        simp [List.find?, hbe]
      by_cases hsx : seen.contains (flowKey x) = true
      · rw [hdef, if_pos hsx, hfind]
        exact ih seen
      · rw [hdef, if_neg hsx, hfind, List.mem_cons]
        have hne : (flowKey f == flowKey x) = false := by
          simpa using fun h => hxe h.symm
        constructor
        · rintro (rfl | h')
          · exact absurd rfl hxe
          · rcases (ih (flowKey x :: seen)).1 h' with ⟨hco, hf⟩
            rw [List.contains_cons, hne] at hco
            simpa using And.intro hco hf
        · rintro ⟨hco, hf⟩
          right
          refine (ih (flowKey x :: seen)).2 ⟨?_, hf⟩
          rw [List.contains_cons, hne, hco]
          rfl

/-- The ids of the deduplicated elements are pairwise distinct. -/
theorem dedupByIdAux_nodup :
    ∀ (l : List RawElement) (seen : List String),
      ((dedupByIdAux seen l).map (fun e => e.id)).Nodup := by
  intro l
  induction l with
  | nil => intro seen; simp [dedupByIdAux]
  | cons x xs ih =>
    intro seen
    have hdef : dedupByIdAux seen (x :: xs) =
        if seen.contains x.id = true then dedupByIdAux seen xs
        else x :: dedupByIdAux (x.id :: seen) xs := rfl
    by_cases hsx : seen.contains x.id = true
    · rw [hdef, if_pos hsx]; exact ih seen
    · rw [hdef, if_neg hsx]
      refine List.nodup_cons.2 ⟨?_, ih (x.id :: seen)⟩
      intro hmem
      rcases List.mem_map.1 hmem with ⟨e, he, hid⟩
      rcases (dedupByIdAux_mem_iff e xs (x.id :: seen)).1 he with ⟨hco, -⟩
      rw [List.contains_cons, hid] at hco
      simp at hco

/-- The dash-joined keys of the deduplicated flows are pairwise distinct. -/
theorem dedupFlowsAux_nodup :
    ∀ (l : List RawFlow) (seen : List String),
      ((dedupFlowsAux seen l).map flowKey).Nodup := by
  intro l
  induction l with
  | nil => intro seen; simp [dedupFlowsAux]
  | cons x xs ih =>
    intro seen
    have hdef : dedupFlowsAux seen (x :: xs) =
        if seen.contains (flowKey x) = true then dedupFlowsAux seen xs
        else x :: dedupFlowsAux (flowKey x :: seen) xs := rfl
    by_cases hsx : seen.contains (flowKey x) = true
    · rw [hdef, if_pos hsx]; exact ih seen
    · rw [hdef, if_neg hsx]
      refine List.nodup_cons.2 ⟨?_, ih (flowKey x :: seen)⟩
      intro hmem
      rcases List.mem_map.1 hmem with ⟨g, hg, hid⟩
      rcases (dedupFlowsAux_mem_iff g xs (flowKey x :: seen)).1 hg with ⟨hco, -⟩
      rw [List.contains_cons, hid] at hco
      simp at hco

/-- Every flow retained by the validation filter has both endpoints among
the converted elements, never has an end event as source, and carries the
unmodified fields of an input flow. -/
theorem keptFlows_sound (els : List BPMNElement) (fs : List RawFlow)
    (f' : BPMNSequenceFlow) (h : f' ∈ keptFlows els fs) :
    (∃ e ∈ els, e.id = f'.sourceRef) ∧
    (∃ e ∈ els, e.id = f'.targetRef) ∧
    (∀ e ∈ els, e.id = f'.sourceRef → e.type ≠ "bpmn:EndEvent") ∧
    (∃ f ∈ fs, f'.id = f.id ∧ f'.sourceRef = f.sourceRef ∧
      f'.targetRef = f.targetRef) := by
  simp only [keptFlows] at h
  rcases List.mem_map.1 h with ⟨f, hf, rfl⟩
  rcases List.mem_filter.1 hf with ⟨hfs, hcond⟩
  have hcond' := hcond
  rw [Bool.and_eq_true, Bool.and_eq_true] at hcond'
  rcases hcond' with ⟨⟨hsrc, htgt⟩, hend⟩
  have hsrc' : f.sourceRef ∈ els.map (fun e => e.id) := by
    simpa using hsrc
  have htgt' : f.targetRef ∈ els.map (fun e => e.id) := by
    simpa using htgt
  refine ⟨?_, ?_, ?_, ⟨f, hfs, rfl, rfl, rfl⟩⟩
  · rcases List.mem_map.1 hsrc' with ⟨e, he, hid⟩
    exact ⟨e, he, hid⟩
  · rcases List.mem_map.1 htgt' with ⟨e, he, hid⟩
    exact ⟨e, he, hid⟩
  · intro e he hid hty
    have hmem : e ∈ els.filter (fun x => x.type == "bpmn:EndEvent") :=
      List.mem_filter.2 ⟨he, by simp [hty]⟩
    have : f.sourceRef ∈
        (els.filter (fun x => x.type == "bpmn:EndEvent")).map
          (fun x => x.id) :=
      List.mem_map.2 ⟨e, hmem, hid⟩
    rw [Bool.not_eq_true'] at hend
    rw [← Bool.not_eq_true] at hend
    exact hend (by simpa using this)

/-- Every converted element takes its width and height from the fixed
per-kind tables, and its type and gatewayDirection come from some raw input
element of the conversion list. -/
theorem convertElementsAux_mem :
    ∀ (l : List RawElement) (rp : List RawParticipant)
      (ps : List BPMNParticipant) (counts : List (String × Nat))
      (e : BPMNElement), e ∈ convertElementsAux rp ps counts l →
      (e.bounds.width = getElementWidth e.type ∧
        e.bounds.height = getElementHeight e.type) ∧
      ∃ r ∈ l, e.type = r.type ∧
        e.gatewayDirection =
          (if strIncludes r.type "Gateway" = true then some "Diverging"
           else none) := by
  intro l
  induction l with
  | nil => intro rp ps counts e h; simp [convertElementsAux] at h
  | cons x xs ih =>
    intro rp ps counts e h
    simp only [convertElementsAux] at h
    rcases hfind : rp.findIdx? (fun p => p.id == x.participant) with _ | idx
    · rw [hfind] at h
      dsimp only at h
      rcases ih rp ps counts e h with ⟨hsz, r, hr, hrest⟩
      exact ⟨hsz, r, List.mem_cons_of_mem _ hr, hrest⟩
    · rw [hfind] at h
      dsimp only at h
      rcases hget : ps.get? idx with _ | part
      · rw [hget] at h
        dsimp only at h
        rcases ih rp ps counts e h with ⟨hsz, r, hr, hrest⟩
        exact ⟨hsz, r, List.mem_cons_of_mem _ hr, hrest⟩
      · rw [hget] at h
        dsimp only at h
        rcases List.mem_cons.1 h with rfl | h'
        · refine ⟨⟨?_, ?_⟩, x, List.mem_cons_self _ _, ?_, ?_⟩
          · simp [mkBPMNElement]
          · simp [mkBPMNElement]
          · simp [mkBPMNElement]
          · simp [mkBPMNElement]
        · rcases ih rp ps _ e h' with ⟨hsz, r, hr, hrest⟩
          exact ⟨hsz, r, List.mem_cons_of_mem _ hr, hrest⟩

/-- A successful conversion returns exactly the assembled diagram, and the
assembled diagram passed the schema check. -/
theorem convert_ok_iff (env : JSEnv) (raw : RawData) (d : BPMNDiagramData)
    (h : convertToBPMNFormat env raw = Except.ok d) :
    d = assembledDiagram env raw ∧
      bpmnSchemaOK (assembledDiagram env raw) = true := by
  unfold convertToBPMNFormat at h
  by_cases hok : bpmnSchemaOK (assembledDiagram env raw) = true
  · rw [if_pos hok] at h
    exact ⟨(Except.ok.inj h).symm, hok⟩
  · rw [if_neg hok] at h
    cases h

/-- Every lane built by the participants loop has the fixed width 1000. -/
theorem mkLanes_width :
    ∀ (ps : List RawParticipant) (y : Int) (i : Nat) (l : BPMNLane),
      l ∈ mkLanes ps y i → l.bounds.width = 1000 := by
  intro ps
  induction ps with
  | nil => intro y i l h; simp [mkLanes] at h
  | cons p ps ih =>
    intro y i l h
    simp only [mkLanes] at h
    rcases List.mem_cons.1 h with rfl | h'
    · rfl
    · exact ih _ _ _ h'

/-- Filling flowNodeRefs leaves every lane's bounds unchanged. -/
theorem withFlowNodeRefs_bounds (lanes : List BPMNLane)
    (els : List BPMNElement) (l' : BPMNLane)
    (h : l' ∈ withFlowNodeRefs lanes els) :
    ∃ l ∈ lanes, l'.bounds = l.bounds := by
  rcases List.mem_map.1 h with ⟨l, hl, rfl⟩
  exact ⟨l, hl, rfl⟩

/-- Replacing the input bounds commutes with the id-based dedup. -/
theorem dedupByIdAux_map_bounds (f : RawElement → Option Bounds) :
    ∀ (l : List RawElement) (seen : List String),
      dedupByIdAux seen (l.map (fun e => { e with bounds := f e })) =
        (dedupByIdAux seen l).map (fun e => { e with bounds := f e }) := by
  intro l
  induction l with
  | nil => intro seen; rfl
  | cons x xs ih =>
    intro seen
    show (if seen.contains x.id = true then
        dedupByIdAux seen (xs.map (fun e => { e with bounds := f e }))
      else
        ({ x with bounds := f x } : RawElement) ::
          dedupByIdAux (x.id :: seen)
            (xs.map (fun e => { e with bounds := f e }))) = _
    by_cases hsx : seen.contains x.id = true
    · rw [if_pos hsx, ih]
      show _ = (if seen.contains x.id = true then dedupByIdAux seen xs
        else x :: dedupByIdAux (x.id :: seen) xs).map _
      rw [if_pos hsx]
    · rw [if_neg hsx, ih]
      show _ = (if seen.contains x.id = true then dedupByIdAux seen xs
        else x :: dedupByIdAux (x.id :: seen) xs).map _
      rw [if_neg hsx]
      rfl

/-- The element conversion never reads the input bounds: replacing them
leaves the converted elements unchanged. -/
theorem convertElementsAux_map_bounds (f : RawElement → Option Bounds)
    (rp : List RawParticipant) (ps : List BPMNParticipant) :
    ∀ (l : List RawElement) (counts : List (String × Nat)),
      convertElementsAux rp ps counts
          (l.map (fun e => { e with bounds := f e })) =
        convertElementsAux rp ps counts l := by
  intro l
  induction l with
  | nil => intro counts; rfl
  | cons x xs ih =>
    intro counts
    simp only [List.map_cons, convertElementsAux]
    rcases hfind : rp.findIdx? (fun p => p.id == x.participant) with _ | idx
    · rw [hfind]
      dsimp only
      exact ih counts
    · rw [hfind]
      dsimp only
      rcases hget : ps.get? idx with _ | part
      · dsimp only
        exact ih counts
      · dsimp only
        rw [ih]
        rfl

/-- The width scan never exceeds the running maximum of the member-required
widths, for any pair of related accumulators. -/
theorem swimLaneWidth_foldl_le :
    ∀ (ns : List LaidNode) (a b : Int), a ≤ b →
      ns.foldl
          (fun w n =>
            if n.parentId.isSome then (if w < n.x then n.x + 100 else w)
            else w) a ≤
        ns.foldl
          (fun w n => if n.parentId.isSome then max w (n.x + 100) else w)
          b := by
  intro ns
  induction ns with
  | nil => intro a b h; exact h
  | cons n ns ih =>
    intro a b h
    rw [List.foldl_cons, List.foldl_cons]
    apply ih
    dsimp only
    by_cases hp : n.parentId.isSome = true
    · rw [if_pos hp, if_pos hp]
      by_cases hx : a < n.x
      · rw [if_pos hx]
        exact le_max_right _ _
      · rw [if_neg hx]
        exact le_trans h (le_max_left _ _)
    · rw [if_neg hp, if_neg hp]
      exact h

/-- The width scan result is either the starting accumulator or x + 100 for
some parented member. -/
theorem swimLaneWidth_foldl_cases :
    ∀ (ns : List LaidNode) (a : Int),
      ns.foldl
          (fun w n =>
            if n.parentId.isSome then (if w < n.x then n.x + 100 else w)
            else w) a = a ∨
        ∃ n ∈ ns, n.parentId.isSome = true ∧
          ns.foldl
              (fun w n =>
                if n.parentId.isSome then (if w < n.x then n.x + 100 else w)
                else w) a = n.x + 100 := by
  intro ns
  induction ns with
  | nil => intro a; exact Or.inl rfl
  | cons n ns ih =>
    intro a
    rw [List.foldl_cons]
    rcases ih (if n.parentId.isSome = true then
        (if a < n.x then n.x + 100 else a) else a) with h | ⟨m, hm, hpm, hval⟩
    · by_cases hp : n.parentId.isSome = true
      · by_cases hx : a < n.x
        · right
          refine ⟨n, List.mem_cons_self _ _, hp, ?_⟩
          rw [h, if_pos hp, if_pos hx]
        · left
          rw [h, if_pos hp, if_neg hx]
      · left
        rw [h, if_neg hp]
    · right
      exact ⟨m, List.mem_cons_of_mem _ hm, hpm, hval⟩

/-- Dropping while a character differs empties the list exactly when the
character is absent. -/
theorem dropWhileNe_eq_nil_iff (ch : Char) :
    ∀ s : List Char, s.dropWhile (fun c => c != ch) = [] ↔ ch ∉ s := by
  intro s
  induction s with
  | nil => simp
  | cons c cs ih =>
    by_cases hc : c = ch
    · subst hc
      simp [List.dropWhile]
    · have hbe : (c != ch) = true := by simpa using hc
      simp only [List.dropWhile, hbe, if_true, ih, List.mem_cons]
      constructor
      · intro h hcase
        rcases hcase with h' | h'
        · exact hc h'.symm
        · exact h h'
      · intro h h'
        exact h (Or.inr h')

/-- First-occurrence decomposition along dropWhile on a differing-character
predicate. -/
theorem dropWhileNe_first (ch : Char) :
    ∀ s : List Char, ch ∈ s →
      ∃ a t, s = a ++ ch :: t ∧ ch ∉ a ∧
        s.dropWhile (fun c => c != ch) = ch :: t := by
  intro s
  induction s with
  | nil => intro h; cases h
  | cons c cs ih =>
    intro h
    by_cases hc : c = ch
    · subst hc
      refine ⟨[], cs, rfl, by simp, ?_⟩
      simp [List.dropWhile]
    · have hmem : ch ∈ cs := by
        rcases List.mem_cons.1 h with h' | h'
        · exact absurd h'.symm hc
        · exact h'
      rcases ih hmem with ⟨a, t, hs, ha, hdrop⟩
      have hbe : (c != ch) = true := by simpa using hc
      refine ⟨c :: a, t, by rw [hs]; rfl, ?_, ?_⟩
      · intro hmem'
        rcases List.mem_cons.1 hmem' with h' | h'
        · exact hc h'.symm
        · exact ha h'
      · simp only [List.dropWhile, hbe, if_true]
        exact hdrop

/-- dropWhile on a differing-character predicate jumps over a prefix free of
the character. -/
theorem dropWhileNe_append (ch : Char) :
    ∀ (a t : List Char), ch ∉ a →
      (a ++ ch :: t).dropWhile (fun c => c != ch) = ch :: t := by
  intro a
  induction a with
  | nil =>
    intro t _
    simp [List.dropWhile]
  | cons c a' ih =>
    intro t ha
    have hc : c ≠ ch := by
      intro h
      exact ha (h ▸ List.mem_cons_self _ _)
    have hbe : (c != ch) = true := by simpa using hc
    simp only [List.cons_append, List.dropWhile, hbe, if_true]
    exact ih t (fun h => ha (List.mem_cons_of_mem _ h))

/-- Last-occurrence decomposition: a list containing the character splits at
its last occurrence, and reversing the reverse-side dropWhile yields the
prefix through that occurrence. -/
theorem lastSplit (ch : Char) (l : List Char) (h : ch ∈ l) :
    ∃ b c, l = b ++ ch :: c ∧ ch ∉ c ∧
      (l.reverse.dropWhile (fun x => x != ch)).reverse = b ++ [ch] := by
  have hrev : ch ∈ l.reverse := List.mem_reverse.2 h
  rcases dropWhileNe_first ch l.reverse hrev with ⟨a, t, hs, ha, hdrop⟩
  refine ⟨t.reverse, a.reverse, ?_, ?_, ?_⟩
  · have := congrArg List.reverse hs
    rw [List.reverse_reverse] at this
    rw [this]
    simp
  · intro hmem
    exact ha (List.mem_reverse.1 hmem)
  · rw [hdrop]
    simp

/-- The single process of the assembled diagram carries the converted
elements and the validated flows. -/
theorem assembled_processes (env : JSEnv) (raw : RawData) (pr : BPMNProcess)
    (h : pr ∈ (assembledDiagram env raw).processes) :
    pr.elements = convertElements raw.participants
        (mkParticipants raw.participants 80) (uniqueElements raw.elements) ∧
    pr.sequenceFlows = keptFlows
        (convertElements raw.participants (mkParticipants raw.participants 80)
          (uniqueElements raw.elements))
        (dedupFlows raw.sequenceFlows) := by
  simp only [assembledDiagram, List.mem_singleton] at h
  subst h
  exact ⟨rfl, rfl⟩

/-- Replacing input bounds does not change the converted element list. -/
theorem convertElements_map_bounds (f : RawElement → Option Bounds)
    (raw : RawData) :
    convertElements raw.participants (mkParticipants raw.participants 80)
        (uniqueElements (raw.elements.map (fun e => { e with bounds := f e }))) =
      convertElements raw.participants (mkParticipants raw.participants 80)
        (uniqueElements raw.elements) := by
  unfold convertElements uniqueElements
  rw [dedupByIdAux_map_bounds]
  exact convertElementsAux_map_bounds f _ _ _ _

/-- Claim C1: every sequence flow of a diagram produced by
convertToBPMNFormat has a source and a target among the output elements, no
retained flow has an end event as its source, and each retained flow carries
the unmodified reference fields of an input flow (violating flows are
dropped, not repaired). -/
theorem claim_C1 (env : JSEnv) (raw : RawData) (d : BPMNDiagramData)
    (h : convertToBPMNFormat env raw = Except.ok d) :
    ∀ pr ∈ d.processes, ∀ f ∈ pr.sequenceFlows,
      (∃ e ∈ pr.elements, e.id = f.sourceRef) ∧
      (∃ e ∈ pr.elements, e.id = f.targetRef) ∧
      (∀ e ∈ pr.elements, e.id = f.sourceRef → e.type ≠ "bpmn:EndEvent") ∧
      (∃ rf ∈ raw.sequenceFlows, f.id = rf.id ∧ f.sourceRef = rf.sourceRef ∧
        f.targetRef = rf.targetRef) := by
  rcases convert_ok_iff env raw d h with ⟨rfl, -⟩
  intro pr hpr f hf
  rcases assembled_processes env raw pr hpr with ⟨hels, hflows⟩
  rw [hflows] at hf
  rcases keptFlows_sound _ _ f hf with ⟨hsz, htz, hend, rf, hrf, hid, hsr, htr⟩
  rw [hels]
  exact ⟨hsz, htz, hend, rf, dedupFlowsAux_subset rf raw.sequenceFlows [] hrf,
    hid, hsr, htr⟩

/-- Witness for C1: the concrete payload rawW converts successfully and its
retained flows satisfy the invariant. -/
theorem claim_C1_witness :
    (∃ e ∈ prW.elements, e.id = fW.sourceRef) ∧
    (∃ e ∈ prW.elements, e.id = fW.targetRef) ∧
    (∀ e ∈ prW.elements, e.id = fW.sourceRef → e.type ≠ "bpmn:EndEvent") ∧
    (∃ rf ∈ rawW.sequenceFlows, fW.id = rf.id ∧ fW.sourceRef = rf.sourceRef ∧
      fW.targetRef = rf.targetRef) :=
  claim_C1 envW rawW diagW (by rfl) prW (by decide) fW (by decide)

/-- Counterexample for C2: on the text a-brace-1-brace-b-brace-2-brace-c the
extractor returns the greedy span reaching the last closing brace, which
extends beyond the first balanced span. -/
theorem claim_C2_counterexample :
    extractJsonSpan "a{1}b{2}c" = some "{1}b{2}" ∧
    specFirstBalancedSpan "a{1}b{2}c" = some "{1}" ∧
    ("{1}b{2}" : String) ≠ "{1}" := by
  refine ⟨by decide, by decide, by decide⟩

/-- Claim C2 (amended): the extractor succeeds exactly on texts containing an
opening brace followed later by a closing brace, and then returns the span
from the first opening brace to the last closing brace of the whole text. -/
theorem claim_C2_amended (s r : List Char) :
    extractJsonMatch s = some r ↔
      ∃ a b c, s = a ++ '{' :: (b ++ '}' :: c) ∧ '{' ∉ a ∧ '}' ∉ c ∧
        r = '{' :: (b ++ ['}']) := by
  constructor
  · intro h
    unfold extractJsonMatch at h
    rcases hdrop : s.dropWhile (fun c => c != '{') with _ | ⟨c0, rest⟩
    · rw [hdrop] at h; cases h
    · rw [hdrop] at h
      dsimp only at h
      have hmem : '{' ∈ s := by
        by_contra hnot
        rw [(dropWhileNe_eq_nil_iff '{' s).2 hnot] at hdrop
        cases hdrop
      rcases dropWhileNe_first '{' s hmem with ⟨a, t, hs, ha, hdrop'⟩
      obtain ⟨hc0, hrest⟩ := List.cons.inj (hdrop'.symm.trans hdrop)
      subst hc0
      subst hrest
      by_cases hcon : t.contains '}' = true
      · rw [if_pos hcon] at h
        have hr := (Option.some.inj h).symm
        have hmem2 : '}' ∈ t := by simpa using hcon
        rcases lastSplit '}' t hmem2 with ⟨b, c, hrest2, hc, hrev⟩
        refine ⟨a, b, c, ?_, ha, hc, ?_⟩
        · rw [hs, hrest2]
        · rw [hr, hrev]
      · rw [if_neg hcon] at h
        cases h
  · rintro ⟨a, b, c, hs, ha, hc, hr⟩
    unfold extractJsonMatch
    have hdrop : s.dropWhile (fun ch => ch != '{') = '{' :: (b ++ '}' :: c) :=
      by rw [hs]; exact dropWhileNe_append '{' a (b ++ '}' :: c) ha
    rw [hdrop]
    dsimp only
    have hcon : ((b ++ '}' :: c).contains '}') = true := by simp
    rw [if_pos hcon]
    congr 1
    rw [hr]
    congr 1
    have hrev : (b ++ '}' :: c).reverse = c.reverse ++ '}' :: b.reverse := by
      simp
    rw [hrev, dropWhileNe_append '}' c.reverse b.reverse
      (fun hm => hc (List.mem_reverse.1 hm))]
    simp

/-- Counterexample for C3: the flows (a to b-c) and (a-b to c) have distinct
ordered endpoint pairs yet the dedup, keyed on the dash-joined string,
conflates them and drops the second. -/
theorem claim_C3_counterexample :
    dedupFlows [flowP, flowQ] = [flowP] ∧
    (flowP.sourceRef, flowP.targetRef) ≠ (flowQ.sourceRef, flowQ.targetRef) := by
  refine ⟨by decide, by decide⟩

/-- Claim C3 (amended): node dedup keeps exactly the first element bearing
each id; edge dedup is keyed on the dash-joined string of source and target
(so distinct ordered pairs with colliding joined keys are conflated), keeping
exactly the first flow bearing each key; kept ids and kept keys are pairwise
distinct. -/
theorem claim_C3_amended :
    (∀ (es : List RawElement) (e : RawElement),
        e ∈ uniqueElements es ↔
          es.find? (fun x => x.id == e.id) = some e) ∧
    (∀ es : List RawElement,
        ((uniqueElements es).map (fun e => e.id)).Nodup) ∧
    (∀ (fs : List RawFlow) (f : RawFlow),
        f ∈ dedupFlows fs ↔
          fs.find? (fun g => flowKey g == flowKey f) = some f) ∧
    (∀ fs : List RawFlow, ((dedupFlows fs).map flowKey).Nodup) := by
  refine ⟨?_, ?_, ?_, ?_⟩
  · intro es e
    have h := dedupByIdAux_mem_iff e es []
    simpa [uniqueElements] using h
  · intro es
    exact dedupByIdAux_nodup es []
  · intro fs f
    have h := dedupFlowsAux_mem_iff f fs []
    simpa [dedupFlows] using h
  · intro fs
    exact dedupFlowsAux_nodup fs []

/-- Counterexample for C4: a payload whose only element references an
unknown participant is pruned to zero elements, yet conversion succeeds and
returns a usable diagram instead of failing. -/
theorem claim_C4_counterexample :
    (convertToBPMNFormat envW rawC4).toOption.map
        (fun d => d.processes.map (fun pr => pr.elements.length)) =
      some [0] := by
  decide

/-- Claim C4 (amended): the normalizer performs no zero-node or zero-lane
check; whenever every input element type is one of the seven schema tags and
the complexity is a valid enum value, conversion succeeds, including when
pruning leaves zero elements or zero lanes. -/
theorem claim_C4_amended (env : JSEnv) (raw : RawData)
    (htypes : ∀ e ∈ raw.elements, e.type ∈ validTypes)
    (hcx : raw.metadata.complexity ∈ (["low", "medium", "high"] : List String)) :
    ∃ d, convertToBPMNFormat env raw = Except.ok d := by
  refine ⟨assembledDiagram env raw, ?_⟩
  have hok : bpmnSchemaOK (assembledDiagram env raw) = true := by
    unfold bpmnSchemaOK
    rw [Bool.and_eq_true]
    constructor
    · rw [List.all_eq_true]
      intro pr hpr
      rcases assembled_processes env raw pr hpr with ⟨hels, -⟩
      rw [List.all_eq_true]
      intro e he
      rw [hels] at he
      rcases convertElementsAux_mem _ _ _ _ e he with ⟨-, r, hr, hty, hgd⟩
      have hr' : r ∈ raw.elements := dedupByIdAux_subset r raw.elements [] hr
      unfold elementSchemaOK
      rw [Bool.and_eq_true]
      constructor
      · rw [hty]
        simpa using htypes r hr'
      · rw [hgd]
        by_cases hg : strIncludes r.type "Gateway" = true
        · rw [if_pos hg]
          decide
        · rw [if_neg hg]
    · simpa using hcx
  simp [convertToBPMNFormat, hok]

/-- Witness for the amended C4 at the concrete payload rawC4, which prunes
to zero elements and still converts successfully. -/
theorem claim_C4_witness :
    ∃ d, convertToBPMNFormat envW rawC4 = Except.ok d :=
  claim_C4_amended envW rawC4 (by decide) (by decide)

/-- Counterexample for C5: on two members at x = 100 then x = 150 the width
scan produces 200 while the maximum member-required width is 250, so the
shared lane width is not that maximum. -/
theorem claim_C5_counterexample :
    swimLaneWidth nsC5 ≠ specMaxRequiredWidth nsC5 ∧
    swimLaneWidth nsC5 = 200 ∧ specMaxRequiredWidth nsC5 = 250 := by
  refine ⟨by decide, by decide, by decide⟩

/-- Claim C5 (amended): all lane bounds of a normalizer output share the
fixed width 1000; the frontend relayout gives every lane one shared computed
width; that computed width never exceeds the maximum member-required width
yet is only 0 or x + 100 for some parented member, so it can undershoot the
maximum. -/
theorem claim_C5_amended :
    (∀ (env : JSEnv) (raw : RawData) (d : BPMNDiagramData),
        convertToBPMNFormat env raw = Except.ok d →
          ∀ l ∈ d.lanes, l.bounds.width = 1000) ∧
    (∀ (lanes : List SwimLane) (ns : List LaidNode),
        ∀ l1 ∈ relayoutLanes lanes ns, ∀ l2 ∈ relayoutLanes lanes ns,
          l1.width = l2.width) ∧
    (∀ ns : List LaidNode, swimLaneWidth ns ≤ specMaxRequiredWidth ns) ∧
    (∀ ns : List LaidNode, swimLaneWidth ns = 0 ∨
        ∃ n ∈ ns, n.parentId.isSome = true ∧
          swimLaneWidth ns = n.x + 100) := by
  refine ⟨?_, ?_, ?_, ?_⟩
  · intro env raw d h l hl
    rcases convert_ok_iff env raw d h with ⟨rfl, -⟩
    have hl' : l ∈ withFlowNodeRefs (mkLanes raw.participants 80 0)
        (convertElements raw.participants (mkParticipants raw.participants 80)
          (uniqueElements raw.elements)) := by
      simpa [assembledDiagram] using hl
    rcases withFlowNodeRefs_bounds _ _ _ hl' with ⟨l0, hl0, hb⟩
    rw [hb]
    exact mkLanes_width _ _ _ _ hl0
  · intro lanes ns l1 h1 l2 h2
    rcases List.mem_map.1 h1 with ⟨a1, -, rfl⟩
    rcases List.mem_map.1 h2 with ⟨a2, -, rfl⟩
    rfl
  · intro ns
    exact swimLaneWidth_foldl_le ns 0 0 le_rfl
  · intro ns
    exact swimLaneWidth_foldl_cases ns 0

/-- Witness for the amended C5: the concrete diagram diagW has all lanes at
width 1000, and the scan bound holds on the concrete member list nsC5. -/
theorem claim_C5_witness :
    (∀ l ∈ diagW.lanes, l.bounds.width = 1000) ∧
    swimLaneWidth nsC5 ≤ specMaxRequiredWidth nsC5 :=
  ⟨claim_C5_amended.1 envW rawW diagW (by rfl),
    claim_C5_amended.2.2.1 nsC5⟩

/-- Claim C6: the serializer is deterministic — for one fixed diagram value
its output does not depend on the ambient runtime environment (wall clock,
random source), so two runs, at any two instants, produce byte-identical
XML. -/
theorem claim_C6 (d : BPMNDiagramData) (env1 env2 : JSEnv) :
    generateBPMNXML env1 d = generateBPMNXML env2 d := rfl

/-- Claim C7: element tags are the element kind with the bpmn: marker
stripped (a fixed mapping on the seven schema tags), and each serialized
sequence flow carries exactly two waypoints, the centers of the bounds of
its source and target elements. -/
theorem claim_C7 (f : BPMNSequenceFlow) (els : List BPMNElement)
    (es et : BPMNElement)
    (hs : els.find? (fun e => e.id == f.sourceRef) = some es)
    (ht : els.find? (fun e => e.id == f.targetRef) = some et) :
    (∀ t ∈ validTypes, replaceFirst t "bpmn:" "" = t.drop 5) ∧
    (flowDiWaypoints f els).length = 2 ∧
    flowDiWaypoints f els =
      [{ x := es.bounds.x + es.bounds.width / 2,
         y := es.bounds.y + es.bounds.height / 2 },
       { x := et.bounds.x + et.bounds.width / 2,
         y := et.bounds.y + et.bounds.height / 2 }] := by
  refine ⟨by decide, rfl, ?_⟩
  unfold flowDiWaypoints getElementCenter
  rw [hs, ht]

/-- Witness for C7 on the concrete flow flowW over the element list elsW. -/
theorem claim_C7_witness :
    (∀ t ∈ validTypes, replaceFirst t "bpmn:" "" = t.drop 5) ∧
    (flowDiWaypoints flowW elsW).length = 2 ∧
    flowDiWaypoints flowW elsW =
      [{ x := eS.bounds.x + eS.bounds.width / 2,
         y := eS.bounds.y + eS.bounds.height / 2 },
       { x := eT.bounds.x + eT.bounds.width / 2,
         y := eT.bounds.y + eT.bounds.height / 2 }] :=
  claim_C7 flowW elsW eS eT (by decide) (by decide)

/-- Claim C8: converted elements take their size from the fixed per-kind
tables, the conversion result is independent of any bounds carried by the
input elements, and two output elements of the same kind always share the
same size. -/
theorem claim_C8 :
    (∀ (env : JSEnv) (raw : RawData) (f : RawElement → Option Bounds),
        convertToBPMNFormat env (withInputBounds f raw) =
          convertToBPMNFormat env raw) ∧
    (∀ (env : JSEnv) (raw : RawData) (d : BPMNDiagramData),
        convertToBPMNFormat env raw = Except.ok d →
          ∀ pr ∈ d.processes, ∀ e ∈ pr.elements,
            e.bounds.width = getElementWidth e.type ∧
            e.bounds.height = getElementHeight e.type) ∧
    (∀ (env : JSEnv) (raw : RawData) (d : BPMNDiagramData),
        convertToBPMNFormat env raw = Except.ok d →
          ∀ pr ∈ d.processes, ∀ e1 ∈ pr.elements, ∀ e2 ∈ pr.elements,
            e1.type = e2.type →
              e1.bounds.width = e2.bounds.width ∧
              e1.bounds.height = e2.bounds.height) := by
  have hsizes : ∀ (env : JSEnv) (raw : RawData) (d : BPMNDiagramData),
      convertToBPMNFormat env raw = Except.ok d →
        ∀ pr ∈ d.processes, ∀ e ∈ pr.elements,
          e.bounds.width = getElementWidth e.type ∧
          e.bounds.height = getElementHeight e.type := by
    intro env raw d h pr hpr e he
    rcases convert_ok_iff env raw d h with ⟨rfl, -⟩
    rcases assembled_processes env raw pr hpr with ⟨hels, -⟩
    rw [hels] at he
    exact (convertElementsAux_mem _ _ _ _ e he).1
  refine ⟨?_, hsizes, ?_⟩
  · intro env raw f
    have hA : assembledDiagram env (withInputBounds f raw) =
        assembledDiagram env raw := by
      simp only [assembledDiagram, withInputBounds]
      rw [convertElements_map_bounds f raw]
    unfold convertToBPMNFormat
    rw [hA]
  · intro env raw d h pr hpr e1 h1 e2 h2 hty
    rcases hsizes env raw d h pr hpr e1 h1 with ⟨hw1, hh1⟩
    rcases hsizes env raw d h pr hpr e2 h2 with ⟨hw2, hh2⟩
    rw [hw1, hh1, hw2, hh2, hty]
    exact ⟨rfl, rfl⟩

/-- Witness for C8 on the concrete payload rawW: sizes of the converted
elements come from the tables. -/
theorem claim_C8_witness :
    (∀ pr ∈ diagW.processes, ∀ e ∈ pr.elements,
        e.bounds.width = getElementWidth e.type ∧
        e.bounds.height = getElementHeight e.type) ∧
    convertToBPMNFormat envW (withInputBounds (fun _ => none) rawW) =
      convertToBPMNFormat envW rawW :=
  ⟨claim_C8.2.1 envW rawW diagW (by rfl),
    claim_C8.1 envW rawW (fun _ => none)⟩

/-- Counterexample for C9: a payload missing two of the required top-level
collections yields one single combined message, not a distinct field-level
message per missing collection. -/
theorem claim_C9_counterexample :
    (requiredFieldsCheck
        { hasParticipants := true, hasElements := false,
          hasSequenceFlows := false }).map List.length = some 1 ∧
    (1 : Nat) ≠ 2 := by
  refine ⟨by decide, by decide⟩

/-- Claim C9 (amended): whenever at least one required top-level collection
is missing, the parser returns exactly the single combined message naming
all three collections; it never emits one message per missing collection. -/
theorem claim_C9_amended (p : ParsedPresence)
    (h : p.hasParticipants = false ∨ p.hasElements = false ∨
      p.hasSequenceFlows = false) :
    requiredFieldsCheck p =
      some ["Missing required fields: participants, elements, or sequenceFlows"] ∧
    ∀ msgs, requiredFieldsCheck p = some msgs → msgs.length = 1 := by
  rcases p with ⟨a, b, c⟩
  constructor
  · rcases h with h | h | h <;> subst h <;> simp [requiredFieldsCheck]
  · intro msgs hm
    cases a <;> cases b <;> cases c <;>
      simp [requiredFieldsCheck] at hm <;> rw [← hm] <;> rfl

/-- Witness for the amended C9 at a concrete presence record with a missing
participants collection. -/
theorem claim_C9_witness :
    requiredFieldsCheck
        { hasParticipants := false, hasElements := false,
          hasSequenceFlows := true } =
      some ["Missing required fields: participants, elements, or sequenceFlows"] ∧
    ∀ msgs, requiredFieldsCheck
        { hasParticipants := false, hasElements := false,
          hasSequenceFlows := true } = some msgs → msgs.length = 1 :=
  claim_C9_amended
    { hasParticipants := false, hasElements := false,
      hasSequenceFlows := true } (Or.inl rfl)

/-- Claim C10: getElementCenter is total — an id absent from the element
list yields the origin, and a flow whose two refs are both absent is
serialized with both waypoints at the origin. -/
theorem claim_C10 (els : List BPMNElement) (i : String)
    (f : BPMNSequenceFlow)
    (hi : ∀ e ∈ els, e.id ≠ i)
    (hs : ∀ e ∈ els, e.id ≠ f.sourceRef)
    (ht : ∀ e ∈ els, e.id ≠ f.targetRef) :
    getElementCenter i els = { x := 0, y := 0 } ∧
    flowDiWaypoints f els = [{ x := 0, y := 0 }, { x := 0, y := 0 }] := by
  have hfind : ∀ (j : String), (∀ e ∈ els, e.id ≠ j) →
      els.find? (fun e => e.id == j) = none := by
    intro j hj
    rw [List.find?_eq_none]
    intro e he
    simpa using hj e he
  constructor
  · unfold getElementCenter
    rw [hfind i hi]
  · unfold flowDiWaypoints getElementCenter
    rw [hfind _ hs, hfind _ ht]

/-- Witness for C10 on the empty element list. -/
theorem claim_C10_witness :
    getElementCenter "ghost" [] = { x := 0, y := 0 } ∧
    flowDiWaypoints flowW [] = [{ x := 0, y := 0 }, { x := 0, y := 0 }] :=
  claim_C10 [] "ghost" flowW (by simp) (by simp) (by simp)

end BPMN
